import Mathlib

/-!
Verification of the advanced-logger core pipeline: severity filtering,
context merging, transport fan-out, and the buffering transports
(Memory, LocalStorage, HTTP batch), shallowly embedded from the
TypeScript sources.
-/

set_option autoImplicit false

namespace AdvancedLogger

/-- Context objects (`Record<string, any>` in the source) are modelled as
association lists from keys to integer values; key lookup is first-match,
matching JavaScript property lookup on objects built without duplicate keys. -/
abbrev Ctx := List (String × Int)

/-- JavaScript object-spread merge: the result of spreading base `a` then
overlay `b` has the keys of `a` first, each carrying `b`'s value when `b`
also binds the key, followed by the keys of `b` that are absent from `a`. -/
def spreadMerge (a b : Ctx) : Ctx :=
  (a.map (fun p => match b.lookup p.1 with
    | some v => (p.1, v)
    | none => p))
  ++ b.filter (fun p => (a.lookup p.1).isNone)

/-- Embeds `shouldLog`'s level list `[DEBUG, INFO, WARN, ERROR]`
(enum values are the strings below). -/
def levels : List String := ["debug", "info", "warn", "error"]

/-- JavaScript `Array.prototype.indexOf`: first index of the element, `-1`
when it does not occur. -/
def jsIndexOf (xs : List String) (x : String) : Int :=
  match xs.findIdx? (fun y => y = x) with
  | some i => (i : Int)
  | none => -1

/-- Embeds `Logger.shouldLog`: compare the index of the call's level with the
index of the configured minimum level in the fixed `levels` list. -/
def shouldLog (minLevel level : String) : Bool :=
  jsIndexOf levels level ≥ jsIndexOf levels minLevel

/-- The shape a transport buffers or persists (`LogEntry` in the source);
timestamps are carried as the strings `new Date().toISOString()` produced. -/
structure LogEntry where
  level : String
  message : String
  timestamp : String
  metadata : Option Ctx
  context : Option Ctx
  deriving Repr, DecidableEq

/-- The record built by `Logger.createLogData` (`LogData` in the source);
the `prefix` field of the source is named `pfx` here. -/
structure LogData where
  level : String
  message : String
  timestamp : String
  pfx : String
  metadata : Option Ctx
  context : Option Ctx
  deriving Repr, DecidableEq

/-- Pure state of a `Logger` instance. The transport list is held by
reference in the source, so here a logger stores `transportsRef`, an index
into a `World` of transport-list objects (see below); `context` is the
logger-owned overlay. -/
structure Logger where
  pfx : String
  minLevel : String
  context : Ctx
  transportsRef : Nat
  deriving Repr, DecidableEq

/-- Embeds `Logger.createLogData`: merge the global context with the
instance context (instance keys win, being spread second), and attach the
merged object only when it has at least one key. -/
def Logger.createLogData (lg : Logger) (globalCtx : Ctx) (now : String)
    (level message : String) (metadata : Option Ctx) : LogData :=
  let mergedContext := spreadMerge globalCtx lg.context
  { level := level
    message := message
    timestamp := now
    pfx := lg.pfx
    metadata := metadata
    context := if mergedContext.length > 0 then some mergedContext else none }

/-- Embeds `Logger.withContext`: a new logger sharing prefix, formatter,
transport list (same reference) and minLevel, whose overlay is the spread
of the existing context with the added context (added keys win). -/
def Logger.withContext (lg : Logger) (extra : Ctx) : Logger :=
  { lg with context := spreadMerge lg.context extra }

/-- Embeds `Logger.withoutContext`: a new logger whose overlay is a copy of
the existing context with every entry for each listed key deleted. -/
def Logger.withoutContext (lg : Logger) (keys : List String) : Logger :=
  { lg with context := lg.context.filter (fun p => !keys.contains p.1) }

/-- A simulated transport for the fan-out loop of `Logger.log`: `throws`
says whether its `log` method raises an exception when invoked, and
`received` accumulates the records it has been invoked with. -/
structure TransportSim where
  throws : Bool
  received : List LogData
  deriving Repr, DecidableEq

/-- Embeds the dispatch loop of `Logger.log`
(`for (const transport of this.transports) transport.log(...)`): transports
are invoked sequentially in list order with no exception handler, so the
first transport whose `log` throws receives the record but aborts the loop;
the returned flag is true when an exception escaped to the caller. -/
def fanOut : List TransportSim → LogData → List TransportSim × Bool
  | [], _ => ([], false)
  | t :: ts, r =>
    let t1 : TransportSim := { t with received := t.received ++ [r] }
    if t.throws then (t1 :: ts, true)
    else
      let rest := fanOut ts r
      (t1 :: rest.1, rest.2)

/-- Embeds `Logger.log`: return unchanged when `shouldLog` rejects the
level, otherwise build the record via `createLogData` and fan it out to the
transports. The formatter step is identity on the record here (formatting
rewrites only the message text, which none of the dispatch claims depend
on). -/
def Logger.logCall (lg : Logger) (globalCtx : Ctx) (now : String)
    (ts : List TransportSim) (level message : String) (metadata : Option Ctx) :
    List TransportSim × Bool :=
  if shouldLog lg.minLevel level then
    fanOut ts (lg.createLogData globalCtx now level message metadata)
  else
    (ts, false)

/-- The mutable store of transport-list objects: JavaScript arrays live on
the heap and are shared by reference, so a `World` maps each reference
(its index) to the current contents of that array. Transports themselves
are identified by number. -/
structure World where
  arrays : List (List Nat)
  deriving Repr, DecidableEq

/-- Dereference a transport-list object. -/
def World.read (w : World) (r : Nat) : List Nat :=
  w.arrays[r]?.getD []

/-- Overwrite the contents of a transport-list object in place. -/
def World.write (w : World) (r : Nat) (l : List Nat) : World :=
  ⟨w.arrays.set r l⟩

/-- Allocate a fresh array object, returning the new world and its
reference. -/
def World.alloc (w : World) (l : List Nat) : World × Nat :=
  (⟨w.arrays ++ [l]⟩, w.arrays.length)

/-- The transports a logger's emissions reach: the current contents of the
array its `transports` field references. -/
def reachedTransports (w : World) (lg : Logger) : List Nat :=
  w.read lg.transportsRef

/-- Embeds the `Logger` constructor with an explicit `transports` option:
`this.transports = options.transports` stores the caller's array reference
without copying. -/
def mkLoggerWith (pfx minLevel : String) (transportsRef : Nat) : Logger :=
  { pfx := pfx, minLevel := minLevel, context := [], transportsRef := transportsRef }

/-- Embeds `Logger.addTransport`: `this.transports.push(transport)` mutates
the referenced array in place, so every logger holding the same reference
observes the addition. -/
def Logger.addTransport (w : World) (lg : Logger) (t : Nat) : World :=
  w.write lg.transportsRef (w.read lg.transportsRef ++ [t])

/-- Embeds `Logger.clearTransports`: `this.transports = []` binds the field
to a freshly allocated empty array, leaving the previously referenced array
untouched. -/
def Logger.clearTransports (w : World) (lg : Logger) : World × Logger :=
  let a := w.alloc []
  (a.1, { lg with transportsRef := a.2 })

/-- Embeds the `MemoryTransport` state: the buffered entries and the
configured cap. -/
structure MemoryTransport where
  logs : List LogEntry
  maxLogs : Nat
  deriving Repr, DecidableEq

/-- Embeds the `MemoryTransport` constructor: `options.maxLogs || 100`
falls back to 100 when the option is absent or `0` (falsy). -/
def MemoryTransport.create (maxLogs : Option Nat) : MemoryTransport :=
  { logs := [], maxLogs := match maxLogs with
      | some n => if n = 0 then 100 else n
      | none => 100 }

/-- Embeds `MemoryTransport.log`: push the entry, then if the buffer now
exceeds `maxLogs`, `shift()` removes the entry at index 0 (the oldest). -/
def MemoryTransport.log (m : MemoryTransport) (e : LogEntry) : MemoryTransport :=
  let pushed := m.logs ++ [e]
  if pushed.length > m.maxLogs then { m with logs := pushed.tail }
  else { m with logs := pushed }

/-- Embeds `MemoryTransport.getLogs`: a copy of the buffer in insertion
order. -/
def MemoryTransport.getLogs (m : MemoryTransport) : List LogEntry :=
  m.logs

/-- Run a sequence of `MemoryTransport.log` insertions. -/
def MemoryTransport.logAll (m : MemoryTransport) (es : List LogEntry) : MemoryTransport :=
  es.foldl MemoryTransport.log m

/-- Embeds `LocalStorageTransport.log` in a browser environment
(`isClient = true`, no storage exception): the stored value under the key
is the deserialized list (empty when the key is absent); the new entry is
`unshift`ed to the front, the list is truncated to `maxLogs` entries when
it exceeds the cap (`existingLogs.length = this.maxLogs`), and stored
back. The JSON round-trip through the store is modelled as identity. -/
def localStorageLog (maxLogs : Nat) (stored : Option (List LogEntry))
    (e : LogEntry) : Option (List LogEntry) :=
  let existing := stored.getD []
  let unshifted := e :: existing
  let trimmed := if unshifted.length > maxLogs then unshifted.take maxLogs else unshifted
  some trimmed

/-- Embeds `LocalStorageTransport.getLogs` in a browser environment: the
deserialized stored list as-is, empty when the key is absent. -/
def localStorageGetLogs (stored : Option (List LogEntry)) : List LogEntry :=
  stored.getD []

/-- Embeds `HttpTransport.sendBatch` as a function of the buffer at call
time, the entries `log`ged while the `fetch` is in flight, and whether the
fetch succeeded. It returns the entries delivered by this call and the
buffer afterwards: an empty buffer returns before fetching; on success the
swapped-out batch is delivered and the buffer keeps only the in-flight
arrivals; on failure nothing is delivered and
`this.batch = [...batchToSend, ...this.batch]` re-prepends the failed batch
ahead of the arrivals. -/
def sendBatch (buffer during : List LogEntry) (ok : Bool) :
    List LogEntry × List LogEntry :=
  if buffer.length = 0 then ([], during)
  else if ok then (buffer, during)
  else ([], buffer ++ during)

/-- Embeds the buffering step of `HttpTransport.log`: push the entry onto
the batch; the returned flag is true when the batch has reached `batchSize`
so that `sendBatch` is triggered immediately. -/
def httpLogPush (batchSize : Nat) (batch : List LogEntry) (e : LogEntry) :
    List LogEntry × Bool :=
  let b := batch ++ [e]
  (b, b.length ≥ batchSize)

/-- The network request `sendBatch` performs, with the body kept as the
entry list that `JSON.stringify` serializes. -/
structure HttpRequest where
  method : String
  headers : List (String × String)
  body : List LogEntry
  deriving Repr, DecidableEq

/-- Embeds the header initialization of the `HttpTransport` constructor:
`options.headers || defaultHeaders` uses the caller's headers object when
one is supplied and the default object otherwise. -/
def httpHeaders (callerHeaders : Option (List (String × String))) :
    List (String × String) :=
  callerHeaders.getD [("Content-Type", "application/json")]

/-- The request issued by `HttpTransport.sendBatch` for a non-empty buffer:
`fetch(endpoint, ... method POST, headers this.headers, body the
JSON-encoded batch)`. -/
def sendBatchRequest (callerHeaders : Option (List (String × String)))
    (buffer : List LogEntry) : HttpRequest :=
  { method := "POST", headers := httpHeaders callerHeaders, body := buffer }

/-! Helper lemmas on association-list lookup, shared by the context-merge
theorems. -/

theorem lookup_append (k : String) (a b : Ctx) :
    (a ++ b).lookup k = (a.lookup k).or (b.lookup k) := by
  induction a with
  | nil => simp [List.lookup]
  | cons p as ih =>
    rcases p with ⟨k1, v1⟩
    by_cases h : k = k1
    · subst h
      simp [List.lookup]
    · have hb : (k == k1) = false := beq_eq_false_iff_ne.mpr h
      simp [List.lookup, hb, ih]

theorem lookup_filter_key (q : String → Bool) (l : Ctx) (k : String) :
    (l.filter (fun p => q p.1)).lookup k = if q k then l.lookup k else none := by
  induction l with
  | nil => simp [List.lookup]
  | cons p as ih =>
    rcases p with ⟨k1, v1⟩
    by_cases h : k = k1
    · subst h
      by_cases hq : q k
      · simp [List.filter, List.lookup, hq]
      · simp [List.filter, List.lookup, hq, ih]
    · have hb : (k == k1) = false := beq_eq_false_iff_ne.mpr h
      by_cases hq : q k1 <;>
        simp [List.filter, List.lookup, hb, hq, ih]

theorem lookup_map_override (g o : Ctx) (k : String) :
    (g.map (fun p => match o.lookup p.1 with
      | some v => (p.1, v)
      | none => p)).lookup k
      = match g.lookup k with
        | some v => some ((o.lookup k).getD v)
        | none => none := by
  induction g with
  | nil => simp [List.lookup]
  | cons p as ih =>
    rcases p with ⟨k1, v1⟩
    by_cases h : k = k1
    · subst h
      cases ho : o.lookup k <;> simp [List.lookup, ho]
    · have hb : (k == k1) = false := beq_eq_false_iff_ne.mpr h
      cases ho : o.lookup k1 <;> simp [List.lookup, hb, ho, ih]

theorem lookup_spreadMerge (g o : Ctx) (k : String) :
    (spreadMerge g o).lookup k = (o.lookup k).or (g.lookup k) := by
  rw [spreadMerge, lookup_append, lookup_map_override,
    lookup_filter_key (fun s => (g.lookup s).isNone)]
  cases hg : g.lookup k <;> cases ho : o.lookup k <;> simp [hg, ho]

theorem foldl_push_eq_append (ds : List LogEntry) (acc : List LogEntry)
    (bs : Nat) :
    ds.foldl (fun b e => (httpLogPush bs b e).1) acc = acc ++ ds := by
  induction ds generalizing acc with
  | nil => simp
  | cons d ds ih =>
    rw [List.foldl_cons, ih]
    simp [httpLogPush]

theorem sendBatch_success (buffer during : List LogEntry) :
    sendBatch buffer during true = (buffer, during) := by
  by_cases h : buffer = [] <;> simp [sendBatch, h]

theorem sendBatch_failure (buffer during : List LogEntry) :
    sendBatch buffer during false = ([], buffer ++ during) := by
  by_cases h : buffer = [] <;> simp [sendBatch, h]

/-- C1: when a network send of a batch fails, `sendBatch` delivers nothing
and restores every entry of the failed batch to the buffer ahead of the
entries logged during the failed attempt (which arrive in insertion order
by `httpLogPush`), so no entry is lost and order is preserved; a subsequent
successful flush then delivers each buffered entry exactly once — the
concatenation of the two attempts' deliveries is exactly the original
entries, in order, with the later arrivals left buffered. -/
theorem http_failed_flush_requeues_without_loss
    (buffer ds during2 : List LogEntry) (bs : Nat) :
    sendBatch buffer (ds.foldl (fun b e => (httpLogPush bs b e).1) []) false
      = ([], buffer ++ ds) ∧
    (sendBatch (buffer ++ ds) during2 true).1 = buffer ++ ds ∧
    (sendBatch buffer ds false).1 ++ (sendBatch (buffer ++ ds) during2 true).1
      = buffer ++ ds ∧
    (sendBatch (buffer ++ ds) during2 true).2 = during2 := by
  rw [foldl_push_eq_append]
  simp only [List.nil_append]
  refine ⟨sendBatch_failure buffer ds, ?_, ?_, ?_⟩
  · rw [sendBatch_success]
  · rw [sendBatch_failure, sendBatch_success]
    simp
  · rw [sendBatch_success]

theorem fanOut_no_throw (ts : List TransportSim) (r : LogData)
    (hok : ∀ t ∈ ts, t.throws = false) :
    fanOut ts r
      = (ts.map (fun t => { t with received := t.received ++ [r] }), false) := by
  induction ts with
  | nil => simp [fanOut]
  | cons t ts ih =>
    have ht : t.throws = false := hok t (by simp)
    have ih2 := ih (fun u hu => hok u (by simp [hu]))
    simp [fanOut, ht, ih2]

/-- C2, counterexample: with a transport list whose first transport throws,
`Logger.log`'s dispatch loop (embedded as `fanOut`) lets the exception
escape and the second transport never receives the record, contrary to the
claim that transports after a throwing one still receive it. -/
theorem transport_fanout_counterexample :
    (fanOut [⟨true, []⟩, ⟨false, []⟩]
        ⟨"info", "m", "t", "App", none, none⟩).2 = true ∧
    (fanOut [⟨true, []⟩, ⟨false, []⟩]
        ⟨"info", "m", "t", "App", none, none⟩).1
      = [⟨true, [⟨"info", "m", "t", "App", none, none⟩]⟩, ⟨false, []⟩] := by
  decide

/-- C2, amended: the dispatch loop invokes transports in registration
order, but has no exception handler: the transports up to and including
the first one whose `log` throws receive the record, every transport after
it does not, and the exception propagates to the caller (flag true exactly
when some transport throws). In particular, when no transport throws,
every transport receives the record in registration order. -/
theorem transport_fanout_throw_isolation (ts : List TransportSim) (r : LogData) :
    fanOut ts r
      = ((ts.take (ts.findIdx (fun t => t.throws) + 1)).map
            (fun t => { t with received := t.received ++ [r] })
          ++ ts.drop (ts.findIdx (fun t => t.throws) + 1),
         ts.any (fun t => t.throws)) := by
  induction ts with
  | nil => simp [fanOut]
  | cons t ts ih =>
    by_cases ht : t.throws
    · simp [fanOut, ht, List.findIdx_cons]
    · simp [fanOut, ht, List.findIdx_cons, ih, List.take_succ_cons,
        List.drop_succ_cons]

/-- C3: with `minLevel = warn`, `debug` and `info` calls are no-ops (no
transport is invoked and the transport states are unchanged) while `warn`
and `error` calls deliver the formatted record to every registered
transport in order; in general `shouldLog` rejects a level exactly when
its index in the fixed order `[debug, info, warn, error]` is below the
minimum level's index. -/
theorem severity_filtering (lg : Logger) (g : Ctx) (now msg : String)
    (md : Option Ctx) (ts : List TransportSim)
    (hmin : lg.minLevel = "warn") (hok : ∀ t ∈ ts, t.throws = false) :
    (lg.logCall g now ts "debug" msg md = (ts, false) ∧
     lg.logCall g now ts "info" msg md = (ts, false)) ∧
    (lg.logCall g now ts "warn" msg md
        = (ts.map (fun t =>
            { t with received :=
                t.received ++ [lg.createLogData g now "warn" msg md] }), false) ∧
     lg.logCall g now ts "error" msg md
        = (ts.map (fun t =>
            { t with received :=
                t.received ++ [lg.createLogData g now "error" msg md] }), false)) ∧
    (∀ minL level : String,
      shouldLog minL level = false ↔
        jsIndexOf levels level < jsIndexOf levels minL) := by
  have h1 : shouldLog "warn" "debug" = false := by decide
  have h2 : shouldLog "warn" "info" = false := by decide
  have h3 : shouldLog "warn" "warn" = true := by decide
  have h4 : shouldLog "warn" "error" = true := by decide
  refine ⟨⟨?_, ?_⟩, ⟨?_, ?_⟩, ?_⟩
  · simp [Logger.logCall, hmin, h1]
  · simp [Logger.logCall, hmin, h2]
  · simp [Logger.logCall, hmin, h3, fanOut_no_throw ts _ hok]
  · simp [Logger.logCall, hmin, h4, fanOut_no_throw ts _ hok]
  · intro minL level
    simp [shouldLog, not_le]

/-- Witness for `severity_filtering` at a concrete logger and transport. -/
theorem severity_filtering_witness :
    Logger.logCall ⟨"App", "warn", [], 0⟩ [] "t" [⟨false, []⟩] "info" "m" none
      = ([⟨false, []⟩], false) :=
  (severity_filtering ⟨"App", "warn", [], 0⟩ [] "t" "m" none [⟨false, []⟩]
    rfl (by decide)).1.2

/-- C4: the context attached to an emitted record is the spread merge of
the global context with the logger's own overlay and is present exactly
when that merge is non-empty; on every key the merge prefers the logger's
own binding over the global one; and on the spec's concrete example the
merge of global a=1, b=2 with overlay b=3, c=4 yields a=1, b=3, c=4. -/
theorem context_merge_precedence (lg : Logger) (g : Ctx)
    (now level msg : String) (md : Option Ctx) :
    ((lg.createLogData g now level msg md).context
      = if (spreadMerge g lg.context).length > 0
        then some (spreadMerge g lg.context) else none) ∧
    (∀ k, (spreadMerge g lg.context).lookup k
      = (lg.context.lookup k).or (g.lookup k)) ∧
    spreadMerge [("a", 1), ("b", 2)] [("b", 3), ("c", 4)]
      = [("a", 1), ("b", 3), ("c", 4)] :=
  ⟨rfl, fun k => lookup_spreadMerge g lg.context k, by decide⟩

/-- C7: `withContext` and `withoutContext` build a new logger and leave the
receiver untouched (the source constructs a fresh instance and assigns only
its fields, so both embed as pure functions of the receiver): the new
logger keeps the same prefix, minimum level and transport-list reference;
`withContext`'s overlay binds each key to the added context's value when
present and otherwise to the existing overlay's value; `withoutContext`'s
overlay drops exactly the listed keys and keeps every other key's binding
unchanged. -/
theorem withContext_withoutContext_immutability (lg : Logger) (extra : Ctx)
    (keys : List String) :
    ((lg.withContext extra).pfx = lg.pfx ∧
     (lg.withContext extra).minLevel = lg.minLevel ∧
     (lg.withContext extra).transportsRef = lg.transportsRef ∧
     (lg.withoutContext keys).pfx = lg.pfx ∧
     (lg.withoutContext keys).minLevel = lg.minLevel ∧
     (lg.withoutContext keys).transportsRef = lg.transportsRef) ∧
    (∀ k, (lg.withContext extra).context.lookup k
      = (extra.lookup k).or (lg.context.lookup k)) ∧
    (∀ k, (lg.withoutContext keys).context.lookup k
      = if keys.contains k then none else lg.context.lookup k) := by
  refine ⟨⟨rfl, rfl, rfl, rfl, rfl, rfl⟩, ?_, ?_⟩
  · intro k
    exact lookup_spreadMerge lg.context extra k
  · intro k
    have h := lookup_filter_key (fun s => !keys.contains s) lg.context k
    rw [Logger.withoutContext]
    simp only [h]
    by_cases hk : keys.contains k <;> simp [hk]

theorem logAll_drop (N : Nat) (es : List LogEntry) :
    ∀ l : List LogEntry, l.length ≤ N →
      (MemoryTransport.logAll ⟨l, N⟩ es).logs
        = (l ++ es).drop (l.length + es.length - N) := by
  induction es with
  | nil =>
    intro l h
    simp [MemoryTransport.logAll, Nat.sub_eq_zero_of_le h]
  | cons e es ih =>
    intro l h
    have hstep : MemoryTransport.logAll ⟨l, N⟩ (e :: es)
        = MemoryTransport.logAll (MemoryTransport.log ⟨l, N⟩ e) es := by
      simp [MemoryTransport.logAll]
    rw [hstep]
    by_cases hgt : l.length + 1 > N
    · have hlen : l.length = N := by omega
      have hcond : (l ++ [e]).length > N := by
        simp [hlen]
      have hlog : MemoryTransport.log ⟨l, N⟩ e = ⟨(l ++ [e]).tail, N⟩ := by
        simp [MemoryTransport.log, hcond]
        intro hcontra
        exact absurd hcontra (by omega)
      have htl : ((l ++ [e]).tail).length ≤ N := by
        simp [hlen]
      rw [hlog, ih _ htl]
      have hidx : ((l ++ [e]).tail).length + es.length - N = es.length := by
        simp [hlen]
      rw [hidx]
      have ht1 : (l ++ [e]).tail = (l ++ [e]).drop 1 := (List.drop_one _).symm
      rw [ht1]
      have hsplit : (l ++ [e]).drop 1 ++ es = ((l ++ [e]) ++ es).drop 1 :=
        (List.drop_append_of_le_length (by simp)).symm
      rw [hsplit, List.drop_drop]
      have hcat : (l ++ [e]) ++ es = l ++ e :: es := by simp
      rw [hcat]
      have hidx3 : l.length + (e :: es).length - N = es.length + 1 := by
        simp only [List.length_cons, hlen]
        omega
      rw [hidx3, Nat.add_comm 1 es.length]
    · have hcond : ¬((l ++ [e]).length > N) := by
        simp
        omega
      have hlog : MemoryTransport.log ⟨l, N⟩ e = ⟨l ++ [e], N⟩ := by
        simp [MemoryTransport.log, hcond]
        intro hcontra
        exact absurd hcontra (by omega)
      have hle : (l ++ [e]).length ≤ N := by
        simp
        omega
      rw [hlog, ih (l ++ [e]) hle]
      have hcat : (l ++ [e]) ++ es = l ++ e :: es := by simp
      have hidx2 : (l ++ [e]).length + es.length - N
          = l.length + (e :: es).length - N := by
        have hl1 : (l ++ [e]).length = l.length + 1 := by simp
        rw [hl1]
        simp only [List.length_cons]
        omega
      rw [hidx2, hcat]

/-- C5: starting from an empty Memory transport configured with
`maxLogs = N` (N at least 1, so the `options.maxLogs || 100` fallback is
not taken), the buffer after any insertion sequence is the suffix of the
insertions that fits in N entries — it never exceeds N entries, it holds
them oldest-first in insertion order, and inserting N + 5 entries leaves
exactly the N most recent ones (the first 5 were evicted one at a time,
oldest first). -/
theorem memory_ring_buffer (N : Nat) (es : List LogEntry) (hN : 1 ≤ N) :
    ((MemoryTransport.create (some N)).logAll es).logs
      = es.drop (es.length - N) ∧
    ((MemoryTransport.create (some N)).logAll es).logs.length ≤ N ∧
    (es.length = N + 5 →
      ((MemoryTransport.create (some N)).logAll es).logs = es.drop 5 ∧
      ((MemoryTransport.create (some N)).logAll es).logs.length = N) := by
  have hN0 : ¬(N = 0) := by omega
  have hc : MemoryTransport.create (some N) = ⟨[], N⟩ := by
    simp [MemoryTransport.create, hN0]
  have hd : ((MemoryTransport.create (some N)).logAll es).logs
      = es.drop (es.length - N) := by
    rw [hc, logAll_drop N es [] (by simp)]
    simp
  refine ⟨hd, ?_, ?_⟩
  · rw [hd]
    simp [List.length_drop]
    omega
  · intro h5
    have h55 : es.length - N = 5 := by omega
    constructor
    · rw [hd, h55]
    · rw [hd]
      simp [List.length_drop]
      omega

/-- Witness for `memory_ring_buffer`: seven insertions with `maxLogs = 2`
leave exactly the last two entries. -/
theorem memory_ring_buffer_witness :
    ((MemoryTransport.create (some 2)).logAll
        [⟨"info", "m1", "t", none, none⟩, ⟨"info", "m2", "t", none, none⟩,
         ⟨"info", "m3", "t", none, none⟩, ⟨"info", "m4", "t", none, none⟩,
         ⟨"info", "m5", "t", none, none⟩, ⟨"info", "m6", "t", none, none⟩,
         ⟨"info", "m7", "t", none, none⟩]).logs.length = 2 :=
  ((memory_ring_buffer 2
      [⟨"info", "m1", "t", none, none⟩, ⟨"info", "m2", "t", none, none⟩,
       ⟨"info", "m3", "t", none, none⟩, ⟨"info", "m4", "t", none, none⟩,
       ⟨"info", "m5", "t", none, none⟩, ⟨"info", "m6", "t", none, none⟩,
       ⟨"info", "m7", "t", none, none⟩] (by decide)).2.2 (by decide)).2

theorem localStorageLog_eq_take (M : Nat) (s : Option (List LogEntry))
    (e : LogEntry) :
    localStorageLog M s e = some ((e :: s.getD []).take M) := by
  by_cases h : (e :: s.getD []).length > M
  · simp [localStorageLog, h]
  · have hle : (e :: s.getD []).length ≤ M := by omega
    simp [localStorageLog, h, List.take_of_length_le hle]

/-- C6: in a browser environment, each `LocalStorageTransport.log` stores
the previous list with the new entry prepended, truncated to at most
`maxLogs` entries by dropping the tail; hence the stored list never
exceeds `maxLogs` entries, and logging "A" then "B" into an absent key
with `maxLogs` at least 2 makes `getLogs` return the B entry before the A
entry (most-recent-first). -/
theorem localstorage_prepend_and_cap (M : Nat) (s : Option (List LogEntry))
    (e eA eB : LogEntry) (hM : 2 ≤ M) :
    localStorageLog M s e = some ((e :: localStorageGetLogs s).take M) ∧
    (localStorageGetLogs (localStorageLog M s e)).length ≤ M ∧
    localStorageGetLogs (localStorageLog M (localStorageLog M none eA) eB)
      = [eB, eA] := by
  refine ⟨localStorageLog_eq_take M s e, ?_, ?_⟩
  · rw [localStorageLog_eq_take]
    simp [localStorageGetLogs, List.length_take]
  · have h1 : localStorageLog M none eA = some [eA] := by
      rw [localStorageLog_eq_take]
      have t1 : ((eA :: (none : Option (List LogEntry)).getD []).take M)
          = [eA] := by
        exact List.take_of_length_le (by simp; omega)
      rw [t1]
    have t2 : ((eB :: (some [eA]).getD []).take M) = [eB, eA] := by
      exact List.take_of_length_le (by simp; omega)
    rw [h1, localStorageLog_eq_take, t2]
    rfl

/-- Witness for `localstorage_prepend_and_cap` with `maxLogs = 2`. -/
theorem localstorage_prepend_and_cap_witness :
    localStorageGetLogs
        (localStorageLog 2
          (localStorageLog 2 none ⟨"info", "A", "t", none, none⟩)
          ⟨"info", "B", "t", none, none⟩)
      = [⟨"info", "B", "t", none, none⟩, ⟨"info", "A", "t", none, none⟩] :=
  (localstorage_prepend_and_cap 2 none ⟨"info", "A", "t", none, none⟩
    ⟨"info", "A", "t", none, none⟩ ⟨"info", "B", "t", none, none⟩
    (by decide)).2.2

/-- C8, counterexample: with the most permissive recognized minimum level
(`debug`, index 0), a call at the unrecognized level "trace" is rejected
by the filter (`indexOf` yields -1 and `-1 >= 0` is false) and no
transport is invoked — the code drops unrecognized levels instead of
always logging them as claimed. -/
theorem unrecognized_level_counterexample :
    shouldLog "debug" "trace" = false ∧
    Logger.logCall ⟨"App", "debug", [], 0⟩ [] "t" [⟨false, []⟩] "trace" "m"
        none
      = ([⟨false, []⟩], false) := by
  decide

/-- C8, amended: whenever the configured minimum level is one of the four
recognized levels, a log call at a level outside that set fails the
severity filter (its `indexOf` is -1, which is below every recognized
minimum's index) and is therefore never delivered to any transport. -/
theorem unrecognized_level_rejected (lg : Logger) (g : Ctx)
    (now msg : String) (md : Option Ctx) (ts : List TransportSim)
    (level : String) (hmin : lg.minLevel ∈ levels) (hlevel : level ∉ levels) :
    shouldLog lg.minLevel level = false ∧
    lg.logCall g now ts level msg md = (ts, false) := by
  have hnone : levels.findIdx? (fun y => y = level) = none := by
    rw [List.findIdx?_eq_none_iff]
    intro x hx
    simp only [decide_eq_false_iff_not]
    intro hxl
    exact hlevel (hxl ▸ hx)
  have hidx : jsIndexOf levels level = -1 := by
    simp [jsIndexOf, hnone]
  have h0 : (0 : Int) ≤ jsIndexOf levels lg.minLevel := by
    have hm := hmin
    simp only [levels, List.mem_cons, List.not_mem_nil, or_false] at hm
    rcases hm with h | h | h | h <;> rw [h] <;> decide
  have hs : shouldLog lg.minLevel level = false := by
    simp only [shouldLog, hidx, decide_eq_false_iff_not, not_le]
    omega
  exact ⟨hs, by simp [Logger.logCall, hs]⟩

/-- Witness for `unrecognized_level_rejected`: minLevel `info`, level
"trace". -/
theorem unrecognized_level_rejected_witness :
    Logger.logCall ⟨"App", "info", [], 0⟩ [] "t" [⟨false, []⟩] "trace" "m"
        none
      = ([⟨false, []⟩], false) :=
  (unrecognized_level_rejected ⟨"App", "info", [], 0⟩ [] "t" "m" none
    [⟨false, []⟩] "trace" (by decide) (by decide)).2

/-- C9, counterexample: when the caller supplies headers that do not
mention Content-Type, the constructor's `options.headers || default`
replaces the default object entirely, so the batch request carries no
Content-Type header — contradicting the claim that the default header is
merged in. -/
theorem http_headers_counterexample :
    ((sendBatchRequest (some [("X-Api-Key", "k")])
        [⟨"info", "m", "t", none, none⟩]).headers).lookup "Content-Type"
      = none := by
  decide

/-- C9, amended: every batch send of a non-empty buffer is a POST whose
body is the JSON-encoded array of exactly the buffered entries, and whose
headers are the caller-supplied headers when any were supplied, or the
default Content-Type application/json object otherwise (the default is
replaced, not merged, by caller headers). -/
theorem http_request_format (hs : Option (List (String × String)))
    (buffer : List LogEntry) (_hne : buffer ≠ []) :
    (sendBatchRequest hs buffer).method = "POST" ∧
    (sendBatchRequest hs buffer).body = buffer ∧
    (sendBatchRequest hs buffer).headers
      = hs.getD [("Content-Type", "application/json")] ∧
    (hs = none →
      (sendBatchRequest hs buffer).headers.lookup "Content-Type"
        = some "application/json") := by
  refine ⟨rfl, rfl, rfl, ?_⟩
  intro h
  subst h
  rfl

/-- Witness for `http_request_format` at a one-entry buffer with no caller
headers. -/
theorem http_request_format_witness :
    (sendBatchRequest none
        [⟨"info", "m", "t", none, none⟩]).headers.lookup "Content-Type"
      = some "application/json" :=
  (http_request_format none [⟨"info", "m", "t", none, none⟩]
    (by decide)).2.2.2 rfl

theorem World.read_write_self (w : World) (r : Nat) (l : List Nat)
    (h : r < w.arrays.length) :
    (w.write r l).read r = l := by
  simp [World.read, World.write, List.getElem?_set_eq_of_lt _ h]

theorem World.read_alloc (w : World) (l : List Nat) (r : Nat)
    (h : r < w.arrays.length) :
    (w.alloc l).1.read r = w.read r := by
  simp only [World.read, World.alloc]
  rw [List.getElem?_append_left h]

/-- C10, counterexample: with one transport-list object holding transport 5
shared by an original logger and its `withContext` derivative, calling
`clearTransports` on the derivative leaves the original's reachable
transports unchanged — `this.transports = []` allocates a fresh empty
array for the derivative instead of mutating the shared one, so the claim
that `clearTransports` on the derived logger also changes the original is
false. -/
theorem shared_transports_counterexample :
    reachedTransports
        (Logger.clearTransports ⟨[[5]]⟩
          (Logger.withContext ⟨"App", "info", [], 0⟩ [("u", 1)])).1
        ⟨"App", "info", [], 0⟩
      = reachedTransports ⟨[[5]]⟩ ⟨"App", "info", [], 0⟩ ∧
    reachedTransports ⟨[[5]]⟩ ⟨"App", "info", [], 0⟩ = [5] := by
  decide

/-- C10, amended: a logger built with an explicit `transports` option and
every logger derived from it via `withContext`/`withoutContext` hold the
same transport-list object by reference, so `addTransport` on the derived
logger (or, through `Manager.stack`, on the cached driver logger) mutates
the shared array and changes which transports the original's subsequent
emissions reach; `clearTransports`, by contrast, rebinds the calling
logger's field to a fresh empty array, so it empties only that logger's
reachable transports and leaves the original's unchanged. -/
theorem shared_transports_mutation (w : World) (lg : Logger) (extra : Ctx)
    (keys : List String) (t : Nat) (h : lg.transportsRef < w.arrays.length) :
    (lg.withContext extra).transportsRef = lg.transportsRef ∧
    (lg.withoutContext keys).transportsRef = lg.transportsRef ∧
    reachedTransports (Logger.addTransport w (lg.withContext extra) t) lg
      = reachedTransports w lg ++ [t] ∧
    reachedTransports (Logger.clearTransports w (lg.withContext extra)).1 lg
      = reachedTransports w lg ∧
    reachedTransports (Logger.clearTransports w (lg.withContext extra)).1
        (Logger.clearTransports w (lg.withContext extra)).2
      = [] := by
  refine ⟨rfl, rfl, ?_, ?_, ?_⟩
  · unfold Logger.addTransport reachedTransports Logger.withContext
    exact World.read_write_self w lg.transportsRef _ h
  · unfold Logger.clearTransports reachedTransports Logger.withContext
      World.alloc
    simp only [World.read]
    rw [List.getElem?_append_left h]
  · unfold Logger.clearTransports reachedTransports Logger.withContext
      World.alloc
    simp [World.read]

/-- Witness for `shared_transports_mutation`: adding transport 7 through
the derived logger is visible to the original logger. -/
theorem shared_transports_mutation_witness :
    reachedTransports
        (Logger.addTransport ⟨[[5]]⟩
          (Logger.withContext ⟨"App", "info", [], 0⟩ [("u", 1)]) 7)
        ⟨"App", "info", [], 0⟩
      = reachedTransports ⟨[[5]]⟩ ⟨"App", "info", [], 0⟩ ++ [7] :=
  (shared_transports_mutation ⟨[[5]]⟩ ⟨"App", "info", [], 0⟩ [("u", 1)] [] 7
    (by decide)).2.2.1

end AdvancedLogger
